import Mathlib

/-!
Verification of the motion-based object localization pipeline of project
elegance against its specification.

The embedding models rasters as lists of rows of 8-bit samples. Color
rasters (3 channels, BGR sample order) are lists of rows of sample
triples. The image-library primitives invoked by the source
(absolute difference, BGR-to-gray conversion, fixed thresholding,
3x3 dilation) are embedded by their documented pixelwise semantics;
contour extraction, contour area and the drawing primitives are modelled
from the specification, as noted on each definition.
-/

/-- Color pixel: a (blue, green, red) triple of 8-bit samples. -/
abbrev Px3 := Nat × Nat × Nat

/-- Color raster: rows of color pixels. -/
abbrev Img3 := List (List Px3)

/-- Single-channel raster: rows of 8-bit samples. -/
abbrev Img1 := List (List Nat)

/-- Absolute difference of two unsigned samples. -/
def pxAbsdiff (a b : Nat) : Nat := max a b - min a b

/-- Channelwise absolute difference of two color pixels. -/
def px3Absdiff (p q : Px3) : Px3 :=
  (pxAbsdiff p.1 q.1, pxAbsdiff p.2.1 q.2.1, pxAbsdiff p.2.2 q.2.2)

/-- Embedding of cv2.absdiff on color rasters: pixelwise saturating
absolute difference. -/
def absdiff (a b : Img3) : Img3 := List.zipWith (List.zipWith px3Absdiff) a b

/-- Embedding of ImageFilter.computeDifferenceAlgorithm (filter.py):
a direct call to cv2.absdiff on the two frames. -/
def computeDifferenceAlgorithm (img1 img2 : Img3) : Img3 := absdiff img1 img2

/-- Embedding of the cv2 fixed-point BGR-to-gray formula
(0.114 B + 0.587 G + 0.299 R scaled by 2^14). -/
def bgr2grayPx (p : Px3) : Nat := (1868 * p.1 + 9617 * p.2.1 + 4899 * p.2.2 + 8192) / 16384

/-- Embedding of cv2.cvtColor with code COLOR_BGR2GRAY. -/
def cvtColorBGR2GRAY (img : Img3) : Img1 := img.map (List.map bgr2grayPx)

/-- Embedding of cv2.threshold with mode THRESH_BINARY: a sample maps to
maxval when strictly above the threshold, else to 0. The retval
component of the cv2 result is dropped, as the source drops it. -/
def thresholdBinary (img : Img1) (thresh maxval : Nat) : Img1 :=
  img.map (List.map (fun v => if thresh < v then maxval else 0))

/-- Three-list pointwise zip, truncating to the shortest list. -/
def zipW3 {α β γ δ : Type} (f : α → β → γ → δ) : List α → List β → List γ → List δ
  | a :: as, b :: bs, c :: cs => f a b c :: zipW3 f as bs cs
  | _, _, _ => []

/-- Bitmask of one mask row: bit x is set exactly when sample x is
foreground (nonzero). -/
def rowBits (row : List Nat) : Nat :=
  row.foldr (fun v acc => 2 * acc + (if v = 0 then 0 else 1)) 0

/-- Row bitmasks of a whole mask. -/
def toBits (m : Img1) : List Nat := m.map rowBits

/-- Binary mask of width w recovered from row bitmasks: set bits become
255, the rest 0. -/
def fromBits (bits : List Nat) (w : Nat) : Img1 :=
  bits.map (fun r => (List.range w).map (fun x => if r.testBit x then 255 else 0))

/-- Horizontal spread of a row bitmask to itself and both horizontal
neighbors. -/
def hSpread (r : Nat) : Nat := r ||| (r <<< 1) ||| (r >>> 1)

/-- One iteration of the 3x3 binary dilation on row bitmasks: a bit
becomes set when any bit of its 3x3 neighborhood is set, rows above and
below the mask reading as background, clipped to width w. -/
def dilateOnceBits (bits : List Nat) (w : Nat) : List Nat :=
  let hc := bits.map hSpread
  zipW3 (fun a b c => (a ||| b ||| c) &&& ((1 <<< w) - 1)) (0 :: hc) hc (hc.drop 1 ++ [0])

/-- Iterated 3x3 binary dilation on row bitmasks. -/
def dilateBits (w : Nat) : Nat → List Nat → List Nat
  | 0, bits => bits
  | n + 1, bits => dilateBits w n (dilateOnceBits bits w)

/-- Embedding of cv2.dilate with the default 3x3 full structuring
element as invoked by the source: the source applies it only to binary
masks (the spec defines MorphologyStage on BinaryMask, sections 3 and
4.3), on which the 3x3 maximum of cv2 coincides with the binary
dilation computed here on row bitmasks: a pixel becomes foreground when
any of its 8 neighbors or itself is foreground, out-of-bounds neighbors
reading as background. Zero iterations return the input unchanged. -/
def dilate : Img1 → Nat → Img1
  | m, 0 => m
  | m, n + 1 =>
      fromBits (dilateBits ((m.headD []).length) (n + 1) (toBits m)) ((m.headD []).length)

/-- Foreground test on row bitmasks at a signed coordinate;
out-of-bounds coordinates are background. -/
def testBitRow (bits : List Nat) (x y : Int) : Bool :=
  if x < 0 ∨ y < 0 then false
  else Nat.testBit (bits.getD y.toNat 0) x.toNat

/-- One step of 8-connected region growing restricted to the foreground
mask fg. -/
def spreadOnce (fg comp : List Nat) : List Nat :=
  let hc := comp.map hSpread
  zipW3 (fun f a b => f &&& (a ||| b)) fg
    (List.zipWith Nat.lor (0 :: hc) hc) (hc.drop 1 ++ [0])

/-- Fixpoint of 8-connected region growing: with enough fuel this
computes the connected component of the seed inside fg. -/
def spreadFix (fg : List Nat) : Nat → List Nat → List Nat
  | 0, comp => comp
  | fuel + 1, comp =>
      let comp2 := spreadOnce fg comp
      if comp2 = comp then comp else spreadFix fg fuel comp2

/-- Bitmask holding the single pixel (x, y). -/
def seedMask (h : Nat) (x y : Int) : List Nat :=
  (List.range h).map (fun i => if (i : Int) = y then 1 <<< x.toNat else 0)

/-- Moore neighborhood directions in clockwise order, as (dx, dy) with y
growing downward: E, SE, S, SW, W, NW, N, NE. -/
def dirVec (d : Nat) : Int × Int :=
  [((1 : Int), (0 : Int)), (1, 1), (0, 1), (-1, 1), (-1, 0), (-1, -1), (0, -1), (1, -1)].getD
    (d % 8) (0, 0)

/-- Backtrack direction for the boundary walk: given the clock position
of the last background neighbor examined before the foreground hit, the
direction from the new pixel back to that background neighbor. -/
def backOf (i : Nat) : Nat := [6, 0, 0, 2, 2, 4, 4, 6].getD (i % 8) 0

/-- Pointwise sum of two integer points. -/
def ptAdd (p q : Int × Int) : Int × Int := (p.1 + q.1, p.2 + q.2)

/-- One step of the Moore boundary walk: from pixel c with backtrack
direction b, sweep the eight neighbors clockwise starting just after the
backtrack and move to the first foreground one, returning the new pixel
and its backtrack direction; none when c is isolated. -/
def findNextStep (comp : List Nat) (c : Int × Int) (b : Nat) : Option ((Int × Int) × Nat) :=
  (List.range 8).findSome? (fun k =>
    let p := ptAdd c (dirVec (b + k + 1))
    if testBitRow comp p.1 p.2 then some (p, backOf (b + k)) else none)

/-- Body of the Moore boundary walk, collecting boundary pixels until the
walk returns to its starting state. -/
def mooreLoop (comp : List Nat) (sPre s0 : (Int × Int) × Nat) :
    Nat → (Int × Int) × Nat → List (Int × Int)
  | 0, _ => []
  | fuel + 1, s =>
      match findNextStep comp s.1 s.2 with
      | none => []
      | some s2 =>
          if s2 = sPre ∨ s2 = s0 then []
          else s2.1 :: mooreLoop comp sPre s0 fuel s2

/-- Modelled from the spec: the closed boundary of one connected
foreground component, traced clockwise by Moore neighbor tracing from
its first pixel in raster order (whose west neighbor is background, so
the initial backtrack direction is W). The spec (section 4.4) requires a
deterministic closed boundary per component; the disabled OpenCV
boundary tracer is not part of the source tree. -/
def traceBoundary (comp : List Nat) (start : Int × Int) (fuel : Nat) : List (Int × Int) :=
  match findNextStep comp start 4 with
  | none => [start]
  | some s0 => start :: s0.1 :: mooreLoop comp (start, 4) s0 fuel s0

/-- Raster scan for components: visits coordinates in raster order and
extracts the 8-connected component of every foreground pixel not already
seen, pairing it with its first pixel in raster order. -/
def scanGo (fg : List Nat) (h w : Nat) :
    List (Int × Int) → List Nat → List ((Int × Int) × List Nat)
  | [], _ => []
  | p :: ps, seen =>
      if testBitRow fg p.1 p.2 && !(testBitRow seen p.1 p.2) then
        let comp := spreadFix fg (h * w + 1) (seedMask h p.1 p.2)
        (p, comp) :: scanGo fg h w ps (List.zipWith Nat.lor seen comp)
      else scanGo fg h w ps seen

/-- Coordinates of an h-by-w grid in raster order, as (x, y) pairs. -/
def rasterCoords (h w : Nat) : List (Int × Int) :=
  (List.range h).flatMap (fun y => (List.range w).map (fun x => ((x : Int), (y : Int))))

/-- Distinct points of a contour (order of last occurrence). -/
def dedupPts : List (Int × Int) → List (Int × Int)
  | [] => []
  | p :: ps => let d := dedupPts ps; if p ∈ d then d else p :: d

/-- Modelled from the spec: contour extraction (section 4.4). The source
delegates to the external cv2.findContours call, which is not part of
the source tree. Per the spec: the closed outer boundary of every
8-connected foreground component, in deterministic raster order of each
component's first-encountered pixel; degenerate single-pixel and
two-pixel components (fewer than 3 distinct boundary points) are
excluded; an all-background mask yields an empty sequence. -/
def findContours (mask : Img1) : List (List (Int × Int)) :=
  let h := mask.length
  let w := (mask.headD []).length
  let fg := toBits mask
  let comps := scanGo fg h w (rasterCoords h w) (List.replicate h 0)
  (comps.map (fun pc => traceBoundary pc.2 pc.1 (4 * h * w + 8))).filter
    (fun c => 3 ≤ (dedupPts c).length)

/-- Cross product term of the shoelace sum. -/
def cross2 (p q : Int × Int) : Int := p.1 * q.2 - q.1 * p.2

/-- Shoelace sum over consecutive contour points, closing back to the
first point. -/
def shoelaceAux (first : Int × Int) : List (Int × Int) → Int
  | [] => 0
  | [p] => cross2 p first
  | p :: q :: rest => cross2 p q + shoelaceAux first (q :: rest)

/-- Modelled from the spec: polygon area of a contour by the shoelace
formula (section 4.5), the semantics of the external cv2.contourArea
call; the result is the floor of half the absolute shoelace sum, which
compares to integer area bounds exactly as the real-valued area does. -/
def contourArea (c : List (Int × Int)) : Nat :=
  match c with
  | [] => 0
  | p :: _ => (shoelaceAux p c).natAbs / 2

/-- Embedding of cv2.boundingRect: the axis-aligned bounding box
(x, y, w, h) of the contour points. -/
def boundingRect (c : List (Int × Int)) : Int × Int × Int × Int :=
  match c with
  | [] => (0, 0, 0, 0)
  | p :: ps =>
      let mnx := ps.foldl (fun a q => min a q.1) p.1
      let mny := ps.foldl (fun a q => min a q.2) p.2
      let mxx := ps.foldl (fun a q => max a q.1) p.1
      let mxy := ps.foldl (fun a q => max a q.2) p.2
      (mnx, mny, mxx - mnx + 1, mxy - mny + 1)

/-- Modelled from the spec: membership in the band of pixels painted by
the thickness-2 rectangle outline of cv2.rectangle between corners
(x, y) and (x + w, y + h). -/
def rectBorderPx (x y w h px py : Int) : Bool :=
  decide ((x - 1 ≤ px ∧ px ≤ x + w + 1 ∧ y - 1 ≤ py ∧ py ≤ y + h + 1) ∧
    ¬(x + 1 < px ∧ px < x + w - 1 ∧ y + 1 < py ∧ py < y + h - 1))

/-- Modelled from the spec: cv2.rectangle drawing the outline of the
rectangle (x, y, w, h) onto a color raster with the given color. -/
def rectangle (img : Img3) (x y w h : Int) (color : Px3) : Img3 :=
  img.enum.map (fun yr => yr.2.enum.map (fun xv =>
    if rectBorderPx x y w h (xv.1 : Int) (yr.1 : Int) then color else xv.2))

/-- Magic parameter of computeWormTrackingAlgorithm: global threshold. -/
def threshold : Nat := 25

/-- Magic parameter of computeWormTrackingAlgorithm: dilation iteration
count. -/
def dilationIter : Nat := 10

/-- Magic parameter of computeWormTrackingAlgorithm: minimum contour
area (the worm is about 200 x 10 pixels). -/
def contourMinArea : Nat := 1000

/-- Result of one worm-tracking invocation: the overlay raster returned
by the source, together with the list of bounding rectangles that were
drawn onto it, recorded in drawing order so the selection behavior is
observable. -/
structure TrackResult where
  overlay : Img3
  rects : List (Int × Int × Int × Int)

/-- One iteration of the contour loop of computeWormTrackingAlgorithm:
a contour with area below contourMinArea is skipped, any other contour
has its bounding rectangle drawn onto the image (and recorded). -/
def trackStep (st : Img3 × List (Int × Int × Int × Int)) (c : List (Int × Int)) :
    Img3 × List (Int × Int × Int × Int) :=
  if contourArea c < contourMinArea then st
  else
    let r := boundingRect c
    (rectangle st.1 r.1 r.2.1 r.2.2.1 r.2.2.2 (0, 0, 170), st.2 ++ [r])

/-- Embedding of ImageFilter.computeWormTrackingAlgorithm (filter.py):
copy the first frame, take the absolute difference of the two frames,
convert it to gray, threshold at 25 to binary, dilate 10 times, find
contours, then draw a bounding rectangle around every contour of
sufficient area. -/
def computeWormTrackingAlgorithm (img1 img2 : Img3) : TrackResult :=
  let img := img1
  let diff := absdiff img1 img2
  let gray := cvtColorBGR2GRAY diff
  let thresh := thresholdBinary gray threshold 255
  let dillation := dilate thresh dilationIter
  let contours := findContours dillation
  let res := contours.foldl trackStep (img, [])
  ⟨res.1, res.2⟩

/-- Difference stage of the pipeline (spec section 4.1). -/
def differenceStage (a b : Img3) : Img3 := computeDifferenceAlgorithm a b

/-- Grayscale conversion stage of the pipeline. -/
def grayscaleStage (d : Img3) : Img1 := cvtColorBGR2GRAY d

/-- Binarization stage of the pipeline (spec section 4.2), with the
threshold the source uses. -/
def binarizeStage (g : Img1) : Img1 := thresholdBinary g threshold 255

/-- Morphology stage of the pipeline (spec section 4.3), with the
iteration count the source uses. -/
def morphStage (t : Img1) : Img1 := dilate t dilationIter

/-- Contour stage of the pipeline (spec section 4.4). -/
def contourStage (d : Img1) : List (List (Int × Int)) := findContours d

/-- Shape estimation stage of the pipeline (spec section 4.5): the
area-filtered rectangle drawing loop over a base raster. -/
def estimateStage (base : Img3) (cs : List (List (Int × Int))) : TrackResult :=
  let res := cs.foldl trackStep (base, [])
  ⟨res.1, res.2⟩

/-- Contours produced by the chained stages for a frame pair. -/
def wormContours (a b : Img3) : List (List (Int × Int)) :=
  contourStage (morphStage (binarizeStage (grayscaleStage (differenceStage a b))))

/-- Embedding of the ImageFilter instance state (filter.py): the ad hoc
frame counter and timing fields used only by the performance-measuring
helpers. -/
structure ImageFilter where
  currentFrame : Nat
  timeStart : Option Nat

/-- Embedding of the computeWormTrackingAlgorithm method together with
the instance state it runs on: the method body reads and writes none of
the instance fields, so the state passes through unchanged. -/
def computeWormTrackingStateful (self : ImageFilter) (img1 img2 : Img3) :
    ImageFilter × TrackResult :=
  (self, computeWormTrackingAlgorithm img1 img2)

/-- Result of one batch index: the overlay written for frame f, or none
when either of the two raster fetches for f fails. The frame source is
modelled as a partial map from frame index to raster, failure standing
for the NameError that ImageHandler.readFrame (data.py) raises. -/
def processFrame (read : Nat → Option Img3) (fDiff f : Nat) : Option Img3 :=
  match read f, read (f + fDiff) with
  | some i1, some i2 => some (computeWormTrackingAlgorithm i1 i2).overlay
  | _, _ => none

/-- Embedding of the frame loop of
AnimationPreRenderer.generateWormTrackingImages (prerender.py): indices
are processed in order; each success appends a persisted (index,
overlay) pair; the loop body contains no exception handler, so the first
failing fetch raises out of the loop, recorded here as the aborting
index, and no later index is processed. -/
def runBatch (read : Nat → Option Img3) (fDiff : Nat) :
    List Nat → List (Nat × Img3) × Option Nat
  | [] => ([], none)
  | f :: fs =>
      match processFrame read fDiff f with
      | some img =>
          let r := runBatch read fDiff fs
          ((f, img) :: r.1, r.2)
      | none => ([], some f)

/-- Embedding of AnimationPreRenderer.generateWormTrackingImages
(prerender.py): run the batch over the inclusive frame range
fStart..fEnd, returning the persisted overlays and the aborting index,
if any. -/
def generateWormTrackingImages (read : Nat → Option Img3) (fStart fEnd fDiff : Nat) :
    List (Nat × Img3) × Option Nat :=
  runBatch read fDiff (List.range' fStart (fEnd + 1 - fStart))

/-- Embedding of the blank initialization of estimateWormPosition
(2d_filter.py): numpy zeros of the input shape, inverted to all-white. -/
def whiteLike (img : Img3) : Img3 := img.map (List.map (fun _ => ((255 : Nat), (255 : Nat), (255 : Nat))))

/-- Modelled from the spec: the thickness-2 circle outline drawn by the
external cv2.circle call, as the band of pixels at distance within one
pixel of the radius. -/
def drawCircle (img : Img3) (cx cy r : Nat) (color : Px3) : Img3 :=
  img.enum.map (fun yr => yr.2.enum.map (fun xv =>
    let dx : Int := (xv.1 : Int) - (cx : Int)
    let dy : Int := (yr.1 : Int) - (cy : Int)
    let d2 : Int := dx * dx + dy * dy
    if ((r : Int) - 1) ^ 2 ≤ d2 ∧ d2 ≤ ((r : Int) + 1) ^ 2 then color else xv.2))

/-- Blank image built by estimateWormPosition (2d_filter.py): an
all-white raster of the input shape with a circle of radius height/2
drawn at center (height/2, width/2); the source passes the height as the
x coordinate of the cv2 center point, a quirk kept here. -/
def blankOf (img : Img3) : Img3 :=
  drawCircle (whiteLike img) (img.length / 2) ((img.headD []).length / 2) (img.length / 2)
    (255, 0, 0)

/-- Write one pixel of a color raster, ignoring out-of-bounds points. -/
def setPt (img : Img3) (p : Int × Int) (color : Px3) : Img3 :=
  if p.1 < 0 ∨ p.2 < 0 then img
  else
    match img.get? p.2.toNat with
    | none => img
    | some row => img.set p.2.toNat (row.set p.1.toNat color)

/-- Modelled from the spec: the external cv2.drawContours call painting
every point of every contour onto the raster in the given color. -/
def drawContours (img : Img3) (cs : List (List (Int × Int))) (color : Px3) : Img3 :=
  cs.foldl (fun im c => c.foldl (fun im2 p => setPt im2 p color) im) img

/-- Result dictionary of estimateWormPosition (2d_filter.py): the image
with the worm bounded, the circle radius and the circle center. Radius
and center hold the integer 0 they are initialized to unless the circle
loop overwrites them. -/
structure EstimateData where
  image : Img3
  radius : Nat
  center : Nat

/-- Iteration of a loop whose body either continues with a new state
(inl) or breaks with a final state (inr). -/
def forLoopBreak {σ α : Type} (body : σ → α → σ ⊕ σ) : σ → List α → σ
  | s, [] => s
  | s, a :: rest =>
      match body s a with
      | Sum.inl s2 => forLoopBreak body s2 rest
      | Sum.inr s2 => s2

/-- Embedding of ImageFilter.estimateWormPosition (2d_filter.py): build
the blank overlay, run the difference / gray / threshold / dilation /
contour chain with the same magic parameters as filter.py, then run the
contour loop whose body begins with an unconditional break statement
(2d_filter.py line 480), so every iteration breaks immediately with the
state unchanged and the area filter and minimum-enclosing-circle code
after the break never executes; finally draw the raw contours onto the
blank. -/
def estimateWormPosition (img1 img2 : Img3) : EstimateData :=
  let blank := blankOf img1
  let diff := absdiff img1 img2
  let gray := cvtColorBGR2GRAY diff
  let thresh := thresholdBinary gray threshold 255
  let dillation := dilate thresh dilationIter
  let contours := findContours dillation
  let rc := forLoopBreak (fun st _ => Sum.inr st) ((0 : Nat), (0 : Nat)) contours
  let image := drawContours blank contours (0, 0, 100)
  ⟨image, rc.1, rc.2⟩

/-- Number of foreground (nonzero) samples of a mask. -/
def countFg (m : Img1) : Nat := (m.map (fun r => r.countP (fun v => v != 0))).sum

/-- Number of set bits with index below w over a list of row
bitmasks. -/
def countBits (w : Nat) (bits : List Nat) : Nat :=
  (bits.map (fun r => (List.range w).countP (fun x => r.testBit x))).sum

/-- Test raster for the multiple-detection run: two bright blobs, 13 and
15 pixels wide, 13 pixels tall, separated by a 21-pixel gap, on a 33x69
black frame. -/
def exBlobs (y x : Nat) : Bool :=
  (10 ≤ y && y ≤ 22) && ((10 ≤ x && x ≤ 22) || (44 ≤ x && x ≤ 58))

/-- Color raster of given shape whose pixels are white where the
predicate holds and black elsewhere. -/
def mkImg3 (h w : Nat) (p : Nat → Nat → Bool) : Img3 :=
  (List.range h).map (fun y => (List.range w).map (fun x =>
    if p y x then (255, 255, 255) else (0, 0, 0)))

/-- First frame of the multiple-detection run. -/
def exA : Img3 := mkImg3 33 69 exBlobs

/-- Second frame of the multiple-detection run: all black. -/
def exB : Img3 := mkImg3 33 69 (fun _ _ => false)

/-- Small uniform all-white test frame. -/
def exGray : Img3 := mkImg3 3 4 (fun _ _ => true)

/-- Frame source whose raster at index 1 is missing and which yields a
one-pixel black raster at every other index. -/
def readOneMissing : Nat → Option Img3 :=
  fun f => if f = 1 then none else some [[(0, 0, 0)]]

/-! Helper lemmas. -/

theorem px3Absdiff_comm (p q : Px3) : px3Absdiff p q = px3Absdiff q p := by
  simp [px3Absdiff, pxAbsdiff, Nat.max_comm, Nat.min_comm]

theorem forLoopBreak_immediate {σ α : Type} (s : σ) (l : List α) :
    forLoopBreak (fun st _ => Sum.inr st) s l = s := by
  cases l <;> rfl

/-- C3: the pipeline applies its stages in the fixed linear order
difference, grayscale, binarization, morphology, contour extraction,
shape estimation, each stage consuming the previous stage's sole output;
in particular the grayscale conversion runs on the output of the
absolute difference. -/
theorem pipeline_stage_order (a b : Img3) :
    computeWormTrackingAlgorithm a b =
      estimateStage a (contourStage (morphStage (binarizeStage (grayscaleStage
        (differenceStage a b))))) := rfl

/-- C8: the detection pipeline is deterministic and has no hidden
mutable state: the result does not depend on the ImageFilter instance
state, the state is returned unchanged, and an immediate second run on
the resulting state yields a bit-identical result. -/
theorem pipeline_deterministic (s t : ImageFilter) (a b : Img3) :
    (computeWormTrackingStateful s a b).2 = (computeWormTrackingStateful t a b).2 ∧
    (computeWormTrackingStateful s a b).1 = s ∧
    (computeWormTrackingStateful ((computeWormTrackingStateful s a b).1) a b).2 =
      (computeWormTrackingStateful s a b).2 :=
  ⟨rfl, rfl, rfl⟩

/-- C7: the difference stage is symmetric on all rasters, and each
output sample is the saturating absolute difference of the inputs. -/
theorem difference_symmetric :
    (∀ a b : Img3, computeDifferenceAlgorithm a b = computeDifferenceAlgorithm b a) ∧
    (∀ x y : Nat, pxAbsdiff x y = ((x : Int) - (y : Int)).natAbs) := by
  constructor
  · intro a b
    show absdiff a b = absdiff b a
    unfold absdiff
    exact List.zipWith_comm_of_comm _
      (fun r s => List.zipWith_comm_of_comm _ px3Absdiff_comm r s) a b
  · intro x y
    unfold pxAbsdiff
    omega

/-- C10: the circle-based position estimator of the 2d_filter variant
returns radius 0 and center 0 for every input pair, the
minimum-enclosing-circle branch after the unconditional break being
unreachable, and its returned image is the blank overlay with only the
raw contour outlines drawn on it. -/
theorem estimate_dead_circle_branch (img1 img2 : Img3) :
    (estimateWormPosition img1 img2).radius = 0 ∧
    (estimateWormPosition img1 img2).center = 0 ∧
    (estimateWormPosition img1 img2).image =
      drawContours (blankOf img1) (wormContours img1 img2) (0, 0, 100) := by
  refine ⟨?_, ?_, ?_⟩ <;>
    simp [estimateWormPosition, forLoopBreak_immediate, wormContours, contourStage,
      morphStage, binarizeStage, grayscaleStage, differenceStage, computeDifferenceAlgorithm]

/-- C4: binarization in Binary mode with an in-range threshold maps each
sample to 255 exactly when it is strictly above the threshold and to 0
otherwise, so every output sample is 0 or 255. -/
theorem binarize_range (img : Img1) (t : Nat) (ht : t ≤ 255) :
    thresholdBinary img t 255 =
      img.map (List.map (fun v => if t < v then 255 else 0)) ∧
    ∀ row ∈ thresholdBinary img t 255, ∀ v ∈ row, v = 0 ∨ v = 255 := by
  refine ⟨rfl, ?_⟩
  intro row hrow v hv
  unfold thresholdBinary at hrow
  rcases List.mem_map.mp hrow with ⟨r0, _, rfl⟩
  rcases List.mem_map.mp hv with ⟨v0, _, rfl⟩
  by_cases h : t < v0 <;> simp [h]

theorem binarize_range_witness :
    (25 : Nat) ≤ 255 ∧
    (thresholdBinary [[10, 200]] 25 255 =
      [[10, 200]].map (List.map (fun v => if 25 < v then 255 else 0)) ∧
    ∀ row ∈ thresholdBinary [[10, 200]] 25 255, ∀ v ∈ row, v = 0 ∨ v = 255) :=
  ⟨by decide, binarize_range [[10, 200]] 25 (by decide)⟩

theorem dedupPts_length_le (c : List (Int × Int)) : (dedupPts c).length ≤ c.length := by
  induction c with
  | nil => simp [dedupPts]
  | cons p ps ih =>
    simp only [dedupPts, List.length_cons]
    split
    · exact Nat.le_succ_of_le ih
    · simpa using Nat.succ_le_succ ih

theorem getD_zero (bits : List Nat) (h : ∀ r ∈ bits, r = 0) (i : Nat) : bits.getD i 0 = 0 := by
  induction bits generalizing i with
  | nil => simp
  | cons b bs ih =>
    cases i with
    | zero => simpa using h b (by simp)
    | succ j => simpa using ih (fun r hr => h r (by simp [hr])) j

theorem rowBits_zero (row : List Nat) (h : ∀ v ∈ row, v = 0) : rowBits row = 0 := by
  induction row with
  | nil => rfl
  | cons v vs ih =>
    have hv : v = 0 := h v (by simp)
    have hrec : rowBits vs = 0 := ih (fun u hu => h u (by simp [hu]))
    show 2 * rowBits vs + (if v = 0 then 0 else 1) = 0
    simp [hv, hrec]

theorem testBitRow_false (bits : List Nat) (h : ∀ r ∈ bits, r = 0) (x y : Int) :
    testBitRow bits x y = false := by
  unfold testBitRow
  split
  · rfl
  · rw [getD_zero bits h]
    exact Nat.zero_testBit _

theorem scanGo_nil (fg : List Nat) (h w : Nat)
    (hf : ∀ x y : Int, testBitRow fg x y = false) :
    ∀ (coords : List (Int × Int)) (seen : List Nat), scanGo fg h w coords seen = [] := by
  intro coords
  induction coords with
  | nil => intro seen; rfl
  | cons p ps ih =>
    intro seen
    simp only [scanGo, hf p.1 p.2, Bool.false_and, Bool.false_eq_true, if_false]
    exact ih seen

/-- C5: every contour returned by contour extraction has at least 3
points, and on an all-background mask the contour stage returns the
empty sequence rather than an error. -/
theorem contour_minimality (mask : Img1) :
    (∀ c ∈ findContours mask, 3 ≤ c.length) ∧
    ((∀ row ∈ mask, ∀ v ∈ row, v = 0) → findContours mask = []) := by
  constructor
  · intro c hc
    unfold findContours at hc
    have hp := (List.mem_filter.mp hc).2
    have h3 : 3 ≤ (dedupPts c).length := by simpa using hp
    exact le_trans h3 (dedupPts_length_le c)
  · intro hz
    have hfg : ∀ x y : Int, testBitRow (toBits mask) x y = false := by
      apply testBitRow_false
      intro r hr
      rcases List.mem_map.mp hr with ⟨row, hrow, rfl⟩
      exact rowBits_zero row (hz row hrow)
    show (((scanGo (toBits mask) mask.length (mask.headD []).length
        (rasterCoords mask.length (mask.headD []).length)
        (List.replicate mask.length 0)).map
          (fun pc => traceBoundary pc.2 pc.1 (4 * mask.length * (mask.headD []).length + 8))).filter
        (fun c => 3 ≤ (dedupPts c).length)) = []
    rw [scanGo_nil _ _ _ hfg]
    rfl

theorem contour_minimality_witness : findContours [[0, 0], [0, 0]] = [] :=
  (contour_minimality [[0, 0], [0, 0]]).2 (by decide)

theorem trackFold_nodraw (cs : List (List (Int × Int)))
    (h : ∀ c ∈ cs, contourArea c < contourMinArea) :
    ∀ st : Img3 × List (Int × Int × Int × Int), cs.foldl trackStep st = st := by
  induction cs with
  | nil => intro st; rfl
  | cons c cs ih =>
    intro st
    have hc : contourArea c < contourMinArea := h c (by simp)
    have hstep : trackStep st c = st := by simp [trackStep, hc]
    calc (c :: cs).foldl trackStep st = cs.foldl trackStep (trackStep st c) := rfl
      _ = cs.foldl trackStep st := by rw [hstep]
      _ = st := ih (fun d hd => h d (by simp [hd])) st

/-- C9: when no contour passes the area filter the result has no
bounding rectangle and the returned overlay equals the unmodified first
input raster; this is a value, not an exception. -/
theorem no_detection_identity (a b : Img3)
    (h : ∀ c ∈ wormContours a b, contourArea c < contourMinArea) :
    (computeWormTrackingAlgorithm a b).rects = [] ∧
    (computeWormTrackingAlgorithm a b).overlay = a := by
  have key : computeWormTrackingAlgorithm a b =
      ⟨((wormContours a b).foldl trackStep (a, [])).1,
        ((wormContours a b).foldl trackStep (a, [])).2⟩ := rfl
  rw [key, trackFold_nodraw _ h (a, [])]
  exact ⟨rfl, rfl⟩

set_option maxRecDepth 40000 in
theorem no_detection_identity_witness :
    (computeWormTrackingAlgorithm exGray exGray).rects = [] ∧
    (computeWormTrackingAlgorithm exGray exGray).overlay = exGray :=
  no_detection_identity exGray exGray (by decide)

theorem computeWormTracking_eq_fold (a b : Img3) :
    computeWormTrackingAlgorithm a b =
      ⟨((wormContours a b).foldl trackStep (a, [])).1,
        ((wormContours a b).foldl trackStep (a, [])).2⟩ := rfl

theorem computeWormTracking_rects (a b : Img3) :
    (computeWormTrackingAlgorithm a b).rects =
      ((wormContours a b).foldl trackStep (a, [])).2 := by
  rw [computeWormTracking_eq_fold]

theorem trackFold_rects (cs : List (List (Int × Int))) :
    ∀ (img : Img3) (rs : List (Int × Int × Int × Int)),
      (cs.foldl trackStep (img, rs)).2 =
        rs ++ ((cs.filter (fun c => decide (contourMinArea ≤ contourArea c))).map boundingRect) := by
  induction cs with
  | nil => intro img rs; simp
  | cons c cs ih =>
    intro img rs
    by_cases hc : contourArea c < contourMinArea
    · have hlt : ¬ contourMinArea ≤ contourArea c := by omega
      have hstep : trackStep (img, rs) c = (img, rs) := by simp [trackStep, hc]
      calc ((c :: cs).foldl trackStep (img, rs)).2
          = (cs.foldl trackStep (trackStep (img, rs) c)).2 := rfl
        _ = (cs.foldl trackStep (img, rs)).2 := by rw [hstep]
        _ = rs ++ (((c :: cs).filter
              (fun c => decide (contourMinArea ≤ contourArea c))).map boundingRect) := by
            rw [ih]
            simp [List.filter, hlt]
    · have hge : contourMinArea ≤ contourArea c := by omega
      have hstep : trackStep (img, rs) c =
          (rectangle img (boundingRect c).1 (boundingRect c).2.1 (boundingRect c).2.2.1
            (boundingRect c).2.2.2 (0, 0, 170), rs ++ [boundingRect c]) := by
        simp [trackStep, hc]
      calc ((c :: cs).foldl trackStep (img, rs)).2
          = (cs.foldl trackStep (trackStep (img, rs) c)).2 := rfl
        _ = rs ++ [boundingRect c] ++
              ((cs.filter (fun c => decide (contourMinArea ≤ contourArea c))).map boundingRect) := by
            rw [hstep, ih]
        _ = rs ++ (((c :: cs).filter
              (fun c => decide (contourMinArea ≤ contourArea c))).map boundingRect) := by
            simp [List.filter, hge]

/-- C1 amended: the shape estimation step draws a bounding rectangle
around every contour whose area is at least the configured minimum, in
contour order; contours below the minimum are discarded, but there is no
maximum bound and no largest-area selection, so the overlay may contain
several bounded regions. -/
theorem wormTracking_draws_all_large_contours (a b : Img3) :
    (computeWormTrackingAlgorithm a b).rects =
      ((wormContours a b).filter
        (fun c => decide (contourMinArea ≤ contourArea c))).map boundingRect := by
  rw [computeWormTracking_rects, trackFold_rects]
  simp

theorem testBit_rowBits_zero (v : Nat) (vs : List Nat) :
    (rowBits (v :: vs)).testBit 0 = (v != 0) := by
  show (2 * rowBits vs + (if v = 0 then 0 else 1)).testBit 0 = (v != 0)
  rw [Nat.testBit_zero]
  by_cases hv : v = 0
  · have h0 : (2 * rowBits vs + (if v = 0 then 0 else 1)) % 2 = 0 := by
      rw [if_pos hv]; omega
    rw [h0]
    simp [hv]
  · have h1 : (2 * rowBits vs + (if v = 0 then 0 else 1)) % 2 = 1 := by
      rw [if_neg hv]; omega
    rw [h1]
    simp [hv]

theorem testBit_rowBits_succ (v : Nat) (vs : List Nat) (i : Nat) :
    (rowBits (v :: vs)).testBit (i + 1) = (rowBits vs).testBit i := by
  show (2 * rowBits vs + (if v = 0 then 0 else 1)).testBit (i + 1) = (rowBits vs).testBit i
  rw [Nat.testBit_succ]
  have he : (2 * rowBits vs + (if v = 0 then 0 else 1)) / 2 = rowBits vs := by
    by_cases hv : v = 0 <;> simp [hv] <;> omega
  rw [he]

theorem countP_row_bits (row : List Nat) :
    row.countP (fun v => v != 0) =
      (List.range row.length).countP (fun x => (rowBits row).testBit x) := by
  induction row with
  | nil => rfl
  | cons v vs ih =>
    rw [List.countP_cons]
    show _ = (List.range (vs.length + 1)).countP (fun x => (rowBits (v :: vs)).testBit x)
    rw [List.range_succ_eq_map, List.countP_cons, List.countP_map]
    have h2 : (List.range vs.length).countP
          ((fun x => (rowBits (v :: vs)).testBit x) ∘ Nat.succ) =
        (List.range vs.length).countP (fun x => (rowBits vs).testBit x) :=
      List.countP_congr (fun x _ => by
        simp [Function.comp, testBit_rowBits_succ])
    rw [h2, ← ih, testBit_rowBits_zero]

theorem countFg_eq_countBits (w : Nat) : ∀ (m : Img1), (∀ r ∈ m, r.length = w) →
    countFg m = countBits w (toBits m) := by
  intro m
  induction m with
  | nil => intro _; rfl
  | cons r rest ih =>
    intro hw
    have h1 := countP_row_bits r
    rw [hw r (by simp)] at h1
    calc countFg (r :: rest)
        = r.countP (fun v => v != 0) + countFg rest := rfl
      _ = (List.range w).countP (fun x => (rowBits r).testBit x) + countBits w (toBits rest) := by
          rw [h1, ih (fun s hs => hw s (by simp [hs]))]
      _ = countBits w (toBits (r :: rest)) := rfl

theorem countFg_fromBits (bits : List Nat) (w : Nat) :
    countFg (fromBits bits w) = countBits w bits := by
  induction bits with
  | nil => rfl
  | cons r rest ih =>
    calc countFg (fromBits (r :: rest) w)
        = ((List.range w).map (fun x => if r.testBit x then 255 else 0)).countP
            (fun v => v != 0) + countFg (fromBits rest w) := rfl
      _ = (List.range w).countP (fun x => r.testBit x) + countBits w rest := by
          rw [List.countP_map, ih]
          congr 1
          apply List.countP_congr
          intro x _
          by_cases h : r.testBit x <;> simp [h, Function.comp]
      _ = countBits w (r :: rest) := rfl

theorem testBit_dilateRow (a b c w x : Nat) (hx : x < w) (hb : b.testBit x = true) :
    ((a ||| hSpread b ||| c) &&& ((1 <<< w) - 1)).testBit x = true := by
  have hmask : ((1 <<< w) - 1).testBit x = true := by
    rw [Nat.shiftLeft_eq, one_mul, Nat.testBit_two_pow_sub_one]
    simpa using hx
  simp [hSpread, Nat.testBit_land, Nat.testBit_lor, hb, hmask]

theorem countBits_le_vert (w : Nat) : ∀ (bits : List Nat) (pr : Nat),
    countBits w bits ≤ countBits w
      (zipW3 (fun a b c => (a ||| b ||| c) &&& ((1 <<< w) - 1))
        (pr :: bits.map hSpread) (bits.map hSpread) ((bits.map hSpread).drop 1 ++ [0])) := by
  intro bits
  induction bits with
  | nil => intro pr; exact le_rfl
  | cons r rest ih =>
    intro pr
    cases rest with
    | nil =>
      refine Nat.add_le_add ?_ le_rfl
      apply List.countP_mono_left
      intro x hx hbit
      exact testBit_dilateRow pr r 0 w x (List.mem_range.mp hx) hbit
    | cons r2 rest2 =>
      refine Nat.add_le_add ?_ (ih (hSpread r))
      apply List.countP_mono_left
      intro x hx hbit
      exact testBit_dilateRow pr r (hSpread r2) w x (List.mem_range.mp hx) hbit

theorem countBits_le_dilateBits (w : Nat) : ∀ (n : Nat) (bits : List Nat),
    countBits w bits ≤ countBits w (dilateBits w n bits) := by
  intro n
  induction n with
  | zero => intro bits; exact le_rfl
  | succ k ih =>
    intro bits
    calc countBits w bits
        ≤ countBits w (dilateOnceBits bits w) := countBits_le_vert w bits 0
      _ ≤ countBits w (dilateBits w k (dilateOnceBits bits w)) := ih _
      _ = countBits w (dilateBits w (k + 1) bits) := rfl

/-- C6: dilating a mask any number of times never decreases the number
of foreground samples, and dilating zero times returns the input
unchanged. -/
theorem dilate_monotone (mask : Img1) (w n : Nat) (hw : ∀ r ∈ mask, r.length = w) :
    countFg mask ≤ countFg (dilate mask n) ∧ dilate mask 0 = mask := by
  refine ⟨?_, rfl⟩
  cases n with
  | zero => exact le_rfl
  | succ k =>
    cases mask with
    | nil => exact Nat.zero_le _
    | cons r rest =>
      have hw0 : ((((r :: rest) : Img1).headD []).length) = w := by
        simpa using hw r (by simp)
      have hd : dilate (r :: rest) (k + 1) =
          fromBits (dilateBits w (k + 1) (toBits (r :: rest))) w := by
        show fromBits
            (dilateBits ((((r :: rest) : Img1).headD []).length) (k + 1) (toBits (r :: rest)))
            ((((r :: rest) : Img1).headD []).length) = _
        rw [hw0]
      calc countFg (r :: rest)
          = countBits w (toBits (r :: rest)) := countFg_eq_countBits w _ hw
        _ ≤ countBits w (dilateBits w (k + 1) (toBits (r :: rest))) :=
            countBits_le_dilateBits w (k + 1) _
        _ = countFg (fromBits (dilateBits w (k + 1) (toBits (r :: rest))) w) :=
            (countFg_fromBits _ w).symm
        _ = countFg (dilate (r :: rest) (k + 1)) := by rw [hd]

theorem dilate_monotone_witness :
    countFg [[0, 255], [0, 0]] ≤ countFg (dilate [[0, 255], [0, 0]] 2) ∧
    dilate [[0, 255], [0, 0]] 0 = [[0, 255], [0, 0]] :=
  dilate_monotone [[0, 255], [0, 0]] 2 2 (by decide)

theorem runBatch_append (read : Nat → Option Img3) (fDiff i : Nat) (l2 : List Nat) :
    ∀ l1 : List Nat, (∀ f ∈ l1, (processFrame read fDiff f).isSome) →
      processFrame read fDiff i = none →
      runBatch read fDiff (l1 ++ i :: l2) =
        (l1.map (fun f => (f, (processFrame read fDiff f).getD [])), some i) := by
  intro l1
  induction l1 with
  | nil =>
    intro _ h2
    show runBatch read fDiff (i :: l2) = ([], some i)
    simp [runBatch, h2]
  | cons f fs ih =>
    intro h1 h2
    have hf := h1 f (by simp)
    rcases Option.isSome_iff_exists.mp hf with ⟨img, himg⟩
    show runBatch read fDiff (f :: (fs ++ i :: l2)) = _
    simp only [runBatch, himg]
    rw [ih (fun g hg => h1 g (by simp [hg])) h2]
    simp [himg]

/-- C2 amended: when the raster fetch for some index i in the range
fails and every earlier index fetches successfully, the batch renderer
aborts at i: the indices before i are processed and persisted, the run
reports i as the aborting index, and no index from i on is processed;
the failure is not recorded per-frame and the remaining indices are not
visited. -/
theorem batch_aborts_at_first_failure (read : Nat → Option Img3) (fStart fEnd fDiff i : Nat)
    (hle1 : fStart ≤ i) (hle2 : i ≤ fEnd)
    (hfail : processFrame read fDiff i = none)
    (hok : ∀ f, fStart ≤ f → f < i → (processFrame read fDiff f).isSome) :
    generateWormTrackingImages read fStart fEnd fDiff =
      ((List.range' fStart (i - fStart)).map
        (fun f => (f, (processFrame read fDiff f).getD [])), some i) := by
  have e1 : fStart + 1 * (i - fStart) = i := by omega
  have e2 : 1 + (fEnd - i) + (i - fStart) = fEnd + 1 - fStart := by omega
  have e3 : 1 + (fEnd - i) = (fEnd - i) + 1 := by omega
  have hsplit : List.range' fStart (fEnd + 1 - fStart) =
      List.range' fStart (i - fStart) ++ (i :: List.range' (i + 1) (fEnd - i)) := by
    calc List.range' fStart (fEnd + 1 - fStart)
        = List.range' fStart (1 + (fEnd - i) + (i - fStart)) := by rw [e2]
      _ = List.range' fStart (i - fStart) ++
            List.range' (fStart + 1 * (i - fStart)) (1 + (fEnd - i)) :=
          (List.range'_append fStart (i - fStart) (1 + (fEnd - i)) 1).symm
      _ = List.range' fStart (i - fStart) ++ List.range' i ((fEnd - i) + 1) := by rw [e1, e3]
      _ = List.range' fStart (i - fStart) ++ (i :: List.range' (i + 1) (fEnd - i)) := by
          rw [List.range'_succ]
  show runBatch read fDiff (List.range' fStart (fEnd + 1 - fStart)) = _
  rw [hsplit]
  exact runBatch_append read fDiff i (List.range' (i + 1) (fEnd - i))
    (List.range' fStart (i - fStart))
    (fun f hf => by
      rcases List.mem_range'.mp hf with ⟨j, hj, rfl⟩
      exact hok _ (by omega) (by omega))
    hfail

theorem batch_aborts_at_first_failure_witness :
    generateWormTrackingImages readOneMissing 0 3 2 =
      ((List.range' 0 (1 - 0)).map
        (fun f => (f, (processFrame readOneMissing 2 f).getD [])), some 1) :=
  batch_aborts_at_first_failure readOneMissing 0 3 2 1 (by decide) (by decide) (by decide)
    (by
      intro f h0 h1
      have hf0 : f = 0 := by omega
      subst hf0
      decide)

/-- C2 counterexample: with the raster at index 1 missing and frame
offset 2 on the range 0..3, only index 0 is persisted and the run aborts
reporting index 1, even though the fetches needed by indices 2 and 3 all
succeed; the batch neither processes the remaining indices nor records a
single failed entry while continuing. -/
theorem batch_abort_cx :
    (generateWormTrackingImages readOneMissing 0 3 2).2 = some 1 ∧
    (generateWormTrackingImages readOneMissing 0 3 2).1.map Prod.fst = [0] ∧
    (processFrame readOneMissing 2 2).isSome = true ∧
    (processFrame readOneMissing 2 3).isSome = true := by
  decide

set_option maxRecDepth 100000 in
set_option maxHeartbeats 4000000 in
/-- C1 counterexample: on the concrete frame pair exA, exB both blobs
survive the area filter, so one pipeline invocation draws two distinct
bounding rectangles, around the two dilated blobs, refuting the claim
that at most one bounding shape is selected per frame pair. -/
theorem wormTracking_multiple_regions_cx :
    (computeWormTrackingAlgorithm exA exB).rects = [(0, 0, 33, 33), (34, 0, 35, 33)] ∧
    ¬ (computeWormTrackingAlgorithm exA exB).rects.length ≤ 1 := by
  constructor <;> decide
